import Mathlib

/-!
Shallow embedding of the feed update engine of `src/app.py` (LocalRSSReader):
the per-feed scheduling and backoff policy, the reconciler, the sweep loop
with cooperative cancellation, the retention prune, and the job manager
state machine.  Parsing is treated as an opaque boundary: a fetched body is
represented by its parsed form (feed title plus entry list, with the stable
guid already computed), exactly as the specification treats `parse`.
Timestamps are epoch seconds as `Int`; each reconciliation step reads a
single `now` value.  The cancellation event is modelled as an oracle
`cancel : Nat → Bool` consulted at the same program points as
`cancel_event.is_set()` in the source, with a global check counter.
-/

namespace LocalRSS

/-- Interval tier defaults from the app.py configuration block. -/
def INTERVAL_LOW : Nat := 20 * 60

/-- Medium interval tier default. -/
def INTERVAL_MED : Nat := 60 * 60

/-- High interval tier default. -/
def INTERVAL_HIGH : Nat := 2 * 60 * 60

/-- Embeds `choose_interval` from app.py. -/
def choose_interval (month_count : Nat) : Nat :=
  if month_count ≤ 10 then INTERVAL_LOW
  else if month_count ≤ 200 then INTERVAL_MED
  else INTERVAL_HIGH

/-- Embeds the backoff computation `min(6 * 3600, (2 ** min(fail, 8)) * 60)`
from the error branch of `update_feeds_async`. -/
def backoff (fail : Nat) : Nat := min (6 * 3600) (2 ^ min fail 8 * 60)

/-- Row of the `feeds` table (columns of the schema in `init_db`). -/
structure FeedRow where
  id : Nat
  url : String
  title : Option String
  etag : Option String
  last_modified : Option String
  last_fetch : Option Int
  fail_count : Nat
  next_fetch : Int
  month_count : Nat
  last_ok : Int
  deriving DecidableEq

/-- Row of the `entries` table (columns of the schema in `init_db`). -/
structure EntryRow where
  feed_id : Nat
  guid : String
  title : String
  link : Option String
  published : Int
  content_html : String
  read_at : Option Int
  bookmarked : Bool
  created_at : Int
  deriving DecidableEq

/-- The store: the `feeds` and `entries` tables. -/
structure DB where
  feeds : List FeedRow
  entries : List EntryRow
  deriving DecidableEq

/-- First feed row with the given id (SELECT ... WHERE id=?). -/
def findRow : List FeedRow → Nat → Option FeedRow
  | [], _ => none
  | f :: fs, fid => if f.id = fid then some f else findRow fs fid

/-- Apply an update to every feed row with the given id (UPDATE ... WHERE id=?). -/
def updRows : List FeedRow → Nat → (FeedRow → FeedRow) → List FeedRow
  | [], _, _ => []
  | f :: fs, fid, g => (if f.id = fid then g f else f) :: updRows fs fid g

/-- Lookup of a feed row in the store by id. -/
def findFeed (db : DB) (fid : Nat) : Option FeedRow := findRow db.feeds fid

/-- Store level UPDATE of one feed row by id. -/
def updateFeedRow (db : DB) (fid : Nat) (g : FeedRow → FeedRow) : DB :=
  { db with feeds := updRows db.feeds fid g }

/-- Whether an entry with the key `(feed_id, guid)` is present (the UNIQUE key). -/
def hasEntryKey : List EntryRow → Nat → String → Bool
  | [], _, _ => false
  | e :: l, fid, g => decide (e.feed_id = fid ∧ e.guid = g) || hasEntryKey l fid g

/-- Whether an entry clashes on the UNIQUE key with no element of a list. -/
def noKeyClash (e : EntryRow) : List EntryRow → Bool
  | [] => true
  | x :: l => decide (¬(x.feed_id = e.feed_id ∧ x.guid = e.guid)) && noKeyClash e l

/-- The UNIQUE(feed_id, guid) constraint: no two rows share the key. -/
def entriesNodupKeys : List EntryRow → Bool
  | [] => true
  | e :: l => noKeyClash e l && entriesNodupKeys l

/-- SQL COALESCE on two nullable strings, as in the title UPDATE of the
ok branch: the first argument wins when it is not null. -/
def coalesce (a b : Option String) : Option String :=
  match a with
  | some x => some x
  | none => b

/-- Feed row update of the not_modified branch: clear the failure streak
and schedule by the interval of the current month_count. -/
def nmUpd (now : Int) (mc : Nat) (f : FeedRow) : FeedRow :=
  { f with last_fetch := some now, fail_count := 0,
           next_fetch := now + (choose_interval mc : Int) }

/-- Feed row update of the error branch: record the new failure streak and
schedule by the backoff. -/
def errUpd (now : Int) (fail : Nat) (f : FeedRow) : FeedRow :=
  { f with last_fetch := some now, fail_count := fail,
           next_fetch := now + (backoff fail : Int) }

/-- Feed row update of the ok branch: COALESCE the title, store the new
conditional headers, stamp last_fetch and last_ok, clear the streak. -/
def okUpd (now : Int) (t etag lm : Option String) (f : FeedRow) : FeedRow :=
  { f with title := coalesce t f.title, etag := etag, last_modified := lm,
           last_fetch := some now, last_ok := now, fail_count := 0 }

/-- Feed row update writing a recomputed month_count. -/
def mcUpd (c : Nat) (f : FeedRow) : FeedRow := { f with month_count := c }

/-- Feed row update scheduling next_fetch by the interval of a month_count. -/
def nfUpd (now : Int) (mc : Nat) (f : FeedRow) : FeedRow :=
  { f with next_fetch := now + (choose_interval mc : Int) }

/-- Count of the entries of one feed at or after the cutoff. -/
def monthCountOf (db : DB) (fid : Nat) (cutoff : Int) : Nat :=
  (db.entries.filter (fun e => decide (e.feed_id = fid ∧ cutoff ≤ e.published))).length

/-- Embeds `recompute_month_count`: count of the entries of a feed at or
after the cutoff, written into the feed row. -/
def recompute_month_count (db : DB) (fid : Nat) (cutoff : Int) : DB :=
  updateFeedRow db fid (mcUpd (monthCountOf db fid cutoff))

/-- A value standing for `time.struct_time` at the conversion boundary:
the year (none when the int conversion of the field raises), and oracles
for the outcomes of `calendar.timegm` and `time.mktime` (none = raises). -/
structure StructTime where
  tm_year : Option Int
  timegm : Option Int
  mktime : Option Int
  deriving DecidableEq

/-- Embeds `safe_struct_time_to_ts` from app.py. -/
def safe_struct_time_to_ts (nowYear now : Int) (st : StructTime) : Int :=
  match st.tm_year with
  | none => now
  | some y =>
    if y < 1971 ∨ nowYear + 5 < y then now
    else
      match st.timegm with
      | some v => v
      | none =>
        match st.mktime with
        | some w => w
        | none => now

/-- A parsed entry as produced by the opaque parse boundary; `guid` is the
output of `stable_guid` (deterministic in the entry fields), `title` is the
stripped title, `content_html` is the output of `entry_content_html`. -/
structure ParsedEntry where
  guid : String
  title : String
  link : Option String
  published_parsed : Option StructTime
  updated_parsed : Option StructTime
  content_html : String
  deriving DecidableEq

/-- A parsed feed body: the stripped title (none when absent or empty) and
the entry list. -/
structure ParsedFeed where
  title : Option String
  entries : List ParsedEntry
  deriving DecidableEq

/-- Embeds `entry_published_ts`: first of published_parsed, updated_parsed,
falling back to now. -/
def entry_published_ts (nowYear now : Int) (e : ParsedEntry) : Int :=
  match e.published_parsed with
  | some st => safe_struct_time_to_ts nowYear now st
  | none =>
    match e.updated_parsed with
    | some st => safe_struct_time_to_ts nowYear now st
    | none => now

/-- The title update slice of `api_feed_create` for an existing feed:
`if title and not existing title` then overwrite, else keep. -/
def feed_create_title (learned existing : Option String) : Option String :=
  match learned, existing with
  | some t, none => some t
  | _, _ => existing

/-- Outcome of one fetch, after the opaque parse of an ok body. -/
inductive FetchResult where
  | not_modified : FetchResult
  | http_error : Nat → FetchResult
  | exn : String → FetchResult
  | ok : ParsedFeed → Option String → Option String → FetchResult
  deriving DecidableEq

/-- Whether a result takes the error branch (`kind != "ok"` and not 304). -/
def FetchResult.isErrKind : FetchResult → Bool
  | .http_error _ => true
  | .exn _ => true
  | _ => false

/-- Result of reconciling one fetch result. -/
structure StepOut where
  db : DB
  isError : Bool
  added : Bool
  ctr : Nat
  deriving DecidableEq

/-- Result of the entry insertion loop of the ok branch. -/
structure EntryLoopOut where
  db : DB
  added : Bool
  ctr : Nat
  deriving DecidableEq

/-- The row an INSERT of the ok branch writes for one parsed entry. -/
def mkEntryRow (fid : Nat) (now pub : Int) (e : ParsedEntry) : EntryRow :=
  { feed_id := fid, guid := e.guid, title := e.title, link := e.link,
    published := pub, content_html := e.content_html, read_at := none,
    bookmarked := false, created_at := now }

/-- The entry loop of the ok branch: per entry, check the cancellation
event, compute the published timestamp, skip below the cutoff, then
INSERT OR IGNORE keyed on (feed_id, guid); `added` records whether any
insert actually happened. -/
def entryLoop (cancel : Nat → Bool) (nowYear now cutoff : Int) (fid : Nat) :
    List ParsedEntry → DB → Nat → EntryLoopOut
  | [], db, c => ⟨db, false, c⟩
  | e :: es, db, c =>
    if cancel c then ⟨db, false, c + 1⟩
    else
      let pub := entry_published_ts nowYear now e
      if pub < cutoff then entryLoop cancel nowYear now cutoff fid es db (c + 1)
      else if hasEntryKey db.entries fid e.guid then
        entryLoop cancel nowYear now cutoff fid es db (c + 1)
      else
        let out := entryLoop cancel nowYear now cutoff fid es
          { db with entries := db.entries ++ [mkEntryRow fid now pub e] } (c + 1)
        ⟨out.db, true, out.ctr⟩

/-- The error branch of the reconciler: increment the failure streak read
from the store and apply the capped exponential backoff. -/
def applyErr (now : Int) (db : DB) (fid : Nat) (c : Nat) : StepOut :=
  { db := updateFeedRow db fid
      (errUpd now (((findFeed db fid).map FeedRow.fail_count).getD 0 + 1)),
    isError := true, added := false, ctr := c }

/-- Reconcile one fetch result for one feed: the body of the result loop of
`update_feeds_async` (the not_modified, error and ok branches). -/
def applyResult (cancel : Nat → Bool) (nowYear now cutoff : Int) (db : DB) (fid : Nat)
    (r : FetchResult) (c : Nat) : StepOut :=
  match r with
  | .not_modified =>
    { db := updateFeedRow db fid
        (nmUpd now (((findFeed db fid).map FeedRow.month_count).getD 0)),
      isError := false, added := false, ctr := c }
  | .http_error _ => applyErr now db fid c
  | .exn _ => applyErr now db fid c
  | .ok p etag lm =>
    let db1 := updateFeedRow db fid (okUpd now p.title etag lm)
    let r1 := entryLoop cancel nowYear now cutoff fid p.entries db1 c
    let db3 := recompute_month_count r1.db fid cutoff
    let db4 := updateFeedRow db3 fid
      (nfUpd now (((findFeed db3 fid).map FeedRow.month_count).getD 0))
    { db := db4, isError := false, added := r1.added, ctr := r1.ctr }

/-- The dispatch loop: one cancellation check per feed, in order, breaking
at the first observed signal; returns the dispatched feeds and the counter. -/
def dispatchLoop (cancel : Nat → Bool) : List FeedRow → Nat → List FeedRow × Nat
  | [], c => ([], c)
  | f :: fs, c =>
    if cancel c then ([], c + 1)
    else
      let out := dispatchLoop cancel fs (c + 1)
      (f :: out.1, out.2)

/-- Aggregate result of the result loop. -/
structure LoopOut where
  db : DB
  checked : Nat
  updated : Nat
  errors : Nat
  reconciled : List Nat
  ctr : Nat
  deriving DecidableEq

/-- The result loop over completed fetches in arrival order: one
cancellation check before consuming each result, breaking at the first
observed signal; otherwise the result is reconciled and counted. -/
def resultLoop (cancel : Nat → Bool) (nowYear now cutoff : Int) :
    List (Nat × FetchResult) → DB → Nat → LoopOut
  | [], db, c => ⟨db, 0, 0, 0, [], c⟩
  | (fid, r) :: rs, db, c =>
    if cancel c then ⟨db, 0, 0, 0, [], c + 1⟩
    else
      let s := applyResult cancel nowYear now cutoff db fid r (c + 1)
      let out := resultLoop cancel nowYear now cutoff rs s.db s.ctr
      ⟨out.db, out.checked + 1, out.updated + (if s.added then 1 else 0),
       out.errors + (if s.isError then 1 else 0), fid :: out.reconciled, out.ctr⟩

/-- The retention prune: DELETE FROM entries WHERE published < cutoff AND
bookmarked = 0. -/
def pruneOld (cutoff : Int) (db : DB) : DB :=
  { db with
    entries := db.entries.filter (fun e => !(decide (e.published < cutoff) && !e.bookmarked)) }

/-- Feed selection of `update_feeds_async`: an explicit id set when the
feed_ids argument is truthy (non empty), else the due filter or all feeds. -/
def selectFeeds (db : DB) (feed_ids : Option (List Nat)) (only_due : Bool) (now : Int) :
    List FeedRow :=
  match feed_ids with
  | some ids =>
    if ids.isEmpty then
      if only_due then db.feeds.filter (fun f => decide (f.next_fetch ≤ now)) else db.feeds
    else
      db.feeds.filter (fun f => decide (f.id ∈ ids))
  | none =>
    if only_due then db.feeds.filter (fun f => decide (f.next_fetch ≤ now)) else db.feeds

/-- Observable outcome of one sweep. -/
structure SweepOut where
  db : DB
  total : Nat
  checked : Nat
  updated : Nat
  errors : Nat
  dispatched : List Nat
  reconciled : List Nat
  txnOpened : Bool
  pruned : Bool
  deriving DecidableEq

/-- Embeds `update_feeds_async`: select feeds, return immediately on an
empty selection (before BEGIN), else dispatch under the cancellation
checks, reconcile arrivals in completion order (`perm` is the completion
order of the dispatched fetches, `results` the outcome per feed id), and
finally prune old unbookmarked entries in one batch. -/
def update_feeds_async (nowYear now cutoff : Int) (db : DB)
    (feed_ids : Option (List Nat)) (only_due : Bool) (cancel : Nat → Bool)
    (results : Nat → FetchResult) (perm : List Nat) : SweepOut :=
  let feeds := selectFeeds db feed_ids only_due now
  if feeds.length = 0 then
    { db := db, total := 0, checked := 0, updated := 0, errors := 0,
      dispatched := [], reconciled := [], txnOpened := false, pruned := false }
  else
    let d := dispatchLoop cancel feeds 0
    let arrivals := perm.map (fun fid => (fid, results fid))
    let out := resultLoop cancel nowYear now cutoff arrivals db d.2
    { db := pruneOld cutoff out.db, total := feeds.length, checked := out.checked,
      updated := out.updated, errors := out.errors,
      dispatched := d.1.map FeedRow.id, reconciled := out.reconciled,
      txnOpened := true, pruned := true }

/-- Lifecycle states of an update job. -/
inductive JobState where
  | running : JobState
  | cancelling : JobState
  | done : JobState
  | error : JobState
  | cancelled : JobState
  deriving DecidableEq

/-- One job record: its state, whether a cancel event object is attached
(always true for jobs the manager creates), whether the event is set, and
whether the runner thread is still pending. -/
structure Job where
  state : JobState
  hasCancelEvent : Bool
  cancelSet : Bool
  runnerPending : Bool
  deriving DecidableEq

/-- The job manager module state: the `_jobs` table, `_active_job_id`, and
a fresh id counter standing for the generated job ids. -/
structure JobManager where
  jobs : List (Nat × Job)
  activeId : Option Nat
  nextId : Nat
  deriving DecidableEq

/-- Lookup in a job association list by id. -/
def jmLookup : List (Nat × Job) → Nat → Option Job
  | [], _ => none
  | p :: ps, jid => if p.1 = jid then some p.2 else jmLookup ps jid

/-- Update every record with the given id in a job association list. -/
def updJobs : List (Nat × Job) → Nat → (Job → Job) → List (Nat × Job)
  | [], _, _ => []
  | p :: ps, jid, g => (if p.1 = jid then (p.1, g p.2) else p) :: updJobs ps jid g

/-- Lookup in the `_jobs` table. -/
def jmFind (m : JobManager) (jid : Nat) : Option Job := jmLookup m.jobs jid

/-- Update the job record with the given id. -/
def jmUpdate (m : JobManager) (jid : Nat) (g : Job → Job) : JobManager :=
  { m with jobs := updJobs m.jobs jid g }

/-- A freshly created job: running, with a fresh unset cancel event and a
pending runner thread. -/
def newJob : Job :=
  { state := .running, hasCancelEvent := true, cancelSet := false, runnerPending := true }

/-- Create a fresh job, record it as active, and launch its runner. -/
def jmStartNew (m : JobManager) : JobManager × Nat :=
  ({ jobs := m.jobs ++ [(m.nextId, newJob)], activeId := some m.nextId,
     nextId := m.nextId + 1 }, m.nextId)

/-- Embeds `start_update_job`: return the active job id when its state is
running, else create a new job. -/
def start_update_job (m : JobManager) : JobManager × Nat :=
  match m.activeId with
  | some aid =>
    if (jmFind m aid).map Job.state = some JobState.running then (m, aid)
    else jmStartNew m
  | none => jmStartNew m

/-- Embeds `cancel_update_job`: false for an unknown id; otherwise, when a
cancel event is attached, set it, record state cancelling, return true. -/
def cancel_update_job (m : JobManager) (jid : Nat) : JobManager × Bool :=
  match jmFind m jid with
  | none => (m, false)
  | some j =>
    if j.hasCancelEvent then
      (jmUpdate m jid (fun j => { j with cancelSet := true, state := .cancelling }), true)
    else (m, false)

/-- Embeds the tail of `runner` in `start_update_job`: on completion the
job moves to error on an uncaught failure, else to cancelled when the
cancel event is set, else to done. -/
def finish_update_job (m : JobManager) (jid : Nat) (failed : Bool) : JobManager :=
  jmUpdate m jid (fun j =>
    if failed then { j with state := .error, runnerPending := false }
    else { j with state := (if j.cancelSet then .cancelled else .done),
                  runnerPending := false })

/-- The initial job manager state: no jobs, no active id. -/
def jmInit : JobManager := { jobs := [], activeId := none, nextId := 0 }

/-- One step of the job manager: a start call, a cancel call, or the
completion of a pending runner. -/
inductive JMStep : JobManager → JobManager → Prop where
  | start (m : JobManager) : JMStep m (start_update_job m).1
  | cancel (m : JobManager) (jid : Nat) : JMStep m (cancel_update_job m jid).1
  | finish (m : JobManager) (jid : Nat) (failed : Bool)
      (h : (jmFind m jid).map Job.runnerPending = some true) :
      JMStep m (finish_update_job m jid failed)

/-- States of the job manager reachable from the initial state. -/
inductive JMReach : JobManager → Prop where
  | init : JMReach jmInit
  | step {m m' : JobManager} : JMReach m → JMStep m m' → JMReach m'

/-- Count of the jobs of a list whose record satisfies a predicate. -/
def countJobs (p : Job → Bool) : List (Nat × Job) → Nat
  | [] => 0
  | q :: qs => (if p q.2 then 1 else 0) + countJobs p qs

/-- Number of jobs currently in the running state. -/
def runningCount (m : JobManager) : Nat :=
  countJobs (fun j => decide (j.state = JobState.running)) m.jobs

/-- Number of jobs currently in the running or cancelling state. -/
def busyCount (m : JobManager) : Nat :=
  countJobs (fun j =>
    decide (j.state = JobState.running ∨ j.state = JobState.cancelling)) m.jobs

/-- Whether a key is absent from a job association list. -/
def keyFree (k : Nat) : List (Nat × Job) → Bool
  | [] => true
  | p :: ps => decide (p.1 ≠ k) && keyFree k ps

/-- Whether the keys of a job association list are pairwise distinct. -/
def keysNodup : List (Nat × Job) → Bool
  | [] => true
  | p :: ps => keyFree p.1 ps && keysNodup ps

/-- Inductive invariant of the job manager: job ids are distinct and below
the fresh counter, and any running job is the active one. -/
def JMInv (m : JobManager) : Prop :=
  keysNodup m.jobs = true ∧
  (∀ p ∈ m.jobs, p.1 < m.nextId) ∧
  (∀ p ∈ m.jobs, p.2.state = JobState.running → m.activeId = some p.1)

/-- Demo trace: one job started from the initial manager state. -/
def jmDemo1 : JobManager := (start_update_job jmInit).1

/-- Demo trace: the first job cancelled while its runner is pending. -/
def jmDemo2 : JobManager := (cancel_update_job jmDemo1 0).1

/-- Demo trace: a second start while the first job is still cancelling. -/
def jmDemo3 : JobManager := (start_update_job jmDemo2).1

/-- Demo trace: the first job ran to completion (state done). -/
def jmDoneDemo : JobManager := finish_update_job jmDemo1 0 false

/-- A feed row with default schema values at a given id and url. -/
def mkFeed (i : Nat) (u : String) (t : Option String) : FeedRow :=
  { id := i, url := u, title := t, etag := none, last_modified := none,
    last_fetch := none, fail_count := 0, next_fetch := 0, month_count := 0,
    last_ok := 0 }

/-- Demo store with a single untitled feed. -/
def demoDb : DB := { feeds := [mkFeed 1 "http://a.example/feed" none], entries := [] }

/-- Demo store with a single feed already carrying a title. -/
def demoTitledDb : DB := { feeds := [mkFeed 1 "http://a.example/feed" (some "Old")], entries := [] }

/-- Demo parsed body carrying a title and no entries. -/
def demoParsedNew : ParsedFeed := { title := some "New", entries := [] }

/-- Demo parsed entry with a fixed in-range publish date. -/
def demoEntryA : ParsedEntry :=
  { guid := "a", title := "A", link := none,
    published_parsed := some { tm_year := some 2026, timegm := some 500, mktime := none },
    updated_parsed := none, content_html := "ca" }

/-- Demo parsed entry dated before any positive cutoff. -/
def demoEntryOld : ParsedEntry :=
  { guid := "old", title := "O", link := none,
    published_parsed := some { tm_year := some 2020, timegm := some (-100), mktime := none },
    updated_parsed := none, content_html := "co" }

/-- Demo parsed body with one fresh and one outdated entry. -/
def demoParsedBody : ParsedFeed := { title := some "T", entries := [demoEntryA, demoEntryOld] }

/-- Demo outdated entry that is bookmarked. -/
def demoBookRow : EntryRow :=
  { feed_id := 1, guid := "b", title := "B", link := none, published := -5,
    content_html := "", read_at := none, bookmarked := true, created_at := 0 }

/-- Demo outdated entry that is not bookmarked. -/
def demoPlainRow : EntryRow :=
  { feed_id := 1, guid := "p", title := "P", link := none, published := -7,
    content_html := "", read_at := none, bookmarked := false, created_at := 0 }

/-- Demo store holding one bookmarked and one plain outdated entry. -/
def demoPruneDb : DB :=
  { feeds := [mkFeed 1 "http://a.example/feed" none],
    entries := [demoBookRow, demoPlainRow] }

/-- Demo struct_time with the corrupt year 9999 and working converters. -/
def demoSt9999 : StructTime :=
  { tm_year := some 9999, timegm := some 253370764800, mktime := some 253370764800 }

theorem findRow_updRows_self (l : List FeedRow) (fid : Nat) (g : FeedRow → FeedRow)
    (hg : ∀ f, (g f).id = f.id) :
    findRow (updRows l fid g) fid = (findRow l fid).map g := by
  induction l with
  | nil => rfl
  | cons f fs ih =>
    by_cases hf : f.id = fid
    · simp [findRow, updRows, hf, hg]
    · simp [findRow, updRows, hf, ih]

theorem findRow_updRows_other (l : List FeedRow) (fid j : Nat) (g : FeedRow → FeedRow)
    (hg : ∀ f, (g f).id = f.id) (hj : j ≠ fid) :
    findRow (updRows l fid g) j = findRow l j := by
  induction l with
  | nil => rfl
  | cons f fs ih =>
    simp only [updRows, findRow]
    by_cases hf : f.id = fid
    · simp [hf, hg, Ne.symm hj, ih]
    · by_cases hfj : f.id = j
      · simp [hf, hfj, hj]
      · simp [hf, hfj, hj, ih]

theorem findFeed_updateFeedRow_self (db : DB) (fid : Nat) (g : FeedRow → FeedRow)
    (hg : ∀ f, (g f).id = f.id) :
    findFeed (updateFeedRow db fid g) fid = (findFeed db fid).map g :=
  findRow_updRows_self db.feeds fid g hg

theorem findFeed_updateFeedRow_other (db : DB) (fid j : Nat) (g : FeedRow → FeedRow)
    (hg : ∀ f, (g f).id = f.id) (hj : j ≠ fid) :
    findFeed (updateFeedRow db fid g) j = findFeed db j :=
  findRow_updRows_other db.feeds fid j g hg hj

theorem updateFeedRow_entries (db : DB) (fid : Nat) (g : FeedRow → FeedRow) :
    (updateFeedRow db fid g).entries = db.entries := rfl

theorem backoff_mono (a b : Nat) (h : a ≤ b) : backoff a ≤ backoff b := by
  unfold backoff
  refine min_le_min le_rfl (Nat.mul_le_mul_right 60 ?_)
  exact Nat.pow_le_pow_right (by norm_num) (min_le_min h le_rfl)

theorem backoff_flat (n : Nat) (h : 8 ≤ n) : backoff n = 15360 := by
  unfold backoff
  rw [min_eq_right h]
  decide

theorem errUpd_id (now : Int) (fail : Nat) (f : FeedRow) : (errUpd now fail f).id = f.id := rfl

theorem nmUpd_id (now : Int) (mc : Nat) (f : FeedRow) : (nmUpd now mc f).id = f.id := rfl

theorem okUpd_id (now : Int) (t etag lm : Option String) (f : FeedRow) :
    (okUpd now t etag lm f).id = f.id := rfl

theorem mcUpd_id (c : Nat) (f : FeedRow) : (mcUpd c f).id = f.id := rfl

theorem nfUpd_id (now : Int) (mc : Nat) (f : FeedRow) : (nfUpd now mc f).id = f.id := rfl

theorem applyErr_row (now : Int) (db : DB) (fid : Nat) (c : Nat) (f : FeedRow)
    (hf : findFeed db fid = some f) :
    findFeed (applyErr now db fid c).db fid = some (errUpd now (f.fail_count + 1) f) := by
  show findFeed (updateFeedRow db fid
      (errUpd now (((findFeed db fid).map FeedRow.fail_count).getD 0 + 1))) fid = _
  rw [findFeed_updateFeedRow_self db fid _ (errUpd_id now _), hf]
  simp

/-- C1: on an http-error or transport-exception result the reconciler
increments the failure streak and schedules `next_fetch = now + backoff`
with `backoff n = min(6h, 60s * 2^min(n,8))`; `backoff 1 = 120`,
`backoff 3 = 480`, backoff is monotone; amended: for all `n ≥ 8` the value
is `15360` seconds (the 6 hour ceiling is never reached, because
`60 * 2^8 = 15360 < 21600`). -/
theorem C1_backoff_amended :
    (∀ cancel nowYear now cutoff db fid r c f, FetchResult.isErrKind r = true →
       findFeed db fid = some f →
       findFeed (applyResult cancel nowYear now cutoff db fid r c).db fid =
         some (errUpd now (f.fail_count + 1) f)) ∧
    (∀ now fail f, (errUpd now fail f).fail_count = fail ∧
       (errUpd now fail f).next_fetch = now + (backoff fail : Int)) ∧
    backoff 1 = 120 ∧ backoff 3 = 480 ∧
    (∀ a b, a ≤ b → backoff a ≤ backoff b) ∧
    (∀ n, 8 ≤ n → backoff n = 15360) := by
  refine ⟨?_, fun now fail f => ⟨rfl, rfl⟩, by decide, by decide, backoff_mono, backoff_flat⟩
  intro cancel nowYear now cutoff db fid r c f hr hf
  match r with
  | .http_error s => exact applyErr_row now db fid c f hf
  | .exn s => exact applyErr_row now db fid c f hf

/-- C1 witness: concrete error reconciliation and concrete backoff values. -/
theorem C1_backoff_amended_witness :
    findFeed (applyResult (fun _ => false) 2026 1000 0 demoDb 1
        (FetchResult.http_error 500) 7).db 1 =
      some (errUpd 1000 1 (mkFeed 1 "http://a.example/feed" none)) ∧
    (errUpd 1000 1 (mkFeed 1 "http://a.example/feed" none)).next_fetch = 1000 + (backoff 1 : Int) ∧
    backoff 1 = 120 ∧ backoff 3 = 480 ∧ backoff 2 ≤ backoff 5 ∧ backoff 9 = 15360 :=
  ⟨C1_backoff_amended.1 (fun _ => false) 2026 1000 0 demoDb 1
      (FetchResult.http_error 500) 7 (mkFeed 1 "http://a.example/feed" none)
      rfl (by decide),
   (C1_backoff_amended.2.1 1000 1 (mkFeed 1 "http://a.example/feed" none)).2,
   C1_backoff_amended.2.2.1, C1_backoff_amended.2.2.2.1,
   C1_backoff_amended.2.2.2.2.1 2 5 (by decide),
   C1_backoff_amended.2.2.2.2.2 9 (by decide)⟩

/-- C1 counterexample: at failure streak 8 the backoff of the code is
15360 seconds, not the 21600 seconds the claim asserts for all n ≥ 8. -/
theorem C1_backoff_counterexample : backoff 8 = 15360 ∧ backoff 8 ≠ 21600 := by decide

/-- C9: the timestamp conversion for parsed publish dates is a total
function; a year outside [1971, currentYear+5] is replaced with the
current time, the UTC conversion is preferred, the local conversion is
used only when the UTC conversion fails, and the current time is returned
when both fail. -/
theorem C9_date_safety : ∀ (nowYear now : Int) (st : StructTime),
    (st.tm_year = none → safe_struct_time_to_ts nowYear now st = now) ∧
    (∀ y, st.tm_year = some y → (y < 1971 ∨ nowYear + 5 < y) →
       safe_struct_time_to_ts nowYear now st = now) ∧
    (∀ y v, st.tm_year = some y → 1971 ≤ y → y ≤ nowYear + 5 → st.timegm = some v →
       safe_struct_time_to_ts nowYear now st = v) ∧
    (∀ y w, st.tm_year = some y → 1971 ≤ y → y ≤ nowYear + 5 → st.timegm = none →
       st.mktime = some w → safe_struct_time_to_ts nowYear now st = w) ∧
    (∀ y, st.tm_year = some y → 1971 ≤ y → y ≤ nowYear + 5 → st.timegm = none →
       st.mktime = none → safe_struct_time_to_ts nowYear now st = now) := by
  intro nowYear now st
  refine ⟨?_, ?_, ?_, ?_, ?_⟩
  · intro h
    simp [safe_struct_time_to_ts, h]
  · intro y hy hout
    simp only [safe_struct_time_to_ts, hy]
    rw [if_pos hout]
  · intro y v hy h1 h2 ht
    simp only [safe_struct_time_to_ts, hy, ht]
    rw [if_neg (by omega)]
  · intro y w hy h1 h2 ht hm
    simp only [safe_struct_time_to_ts, hy, ht, hm]
    rw [if_neg (by omega)]
  · intro y hy h1 h2 ht hm
    simp only [safe_struct_time_to_ts, hy, ht, hm]
    rw [if_neg (by omega)]

/-- C9 witness: the year-9999 date is replaced with now even though both
converters would succeed, and an in-range date uses the UTC conversion. -/
theorem C9_date_safety_witness :
    safe_struct_time_to_ts 2026 777 demoSt9999 = 777 ∧
    safe_struct_time_to_ts 2026 777 { tm_year := some 2026, timegm := some 500, mktime := some 900 } = 500 :=
  ⟨(C9_date_safety 2026 777 demoSt9999).2.1 9999 rfl (by decide),
   (C9_date_safety 2026 777 { tm_year := some 2026, timegm := some 500, mktime := some 900 }).2.2.1
     2026 500 rfl (by decide) (by decide) rfl⟩

/-- C10: when the selected feed set is empty the sweep returns all-zero
counts, leaves the store untouched, opens no transaction, and skips the
retention prune. -/
theorem C10_empty_selection :
    ∀ nowYear now cutoff db feed_ids only_due cancel results perm,
    selectFeeds db feed_ids only_due now = [] →
    update_feeds_async nowYear now cutoff db feed_ids only_due cancel results perm =
      { db := db, total := 0, checked := 0, updated := 0, errors := 0,
        dispatched := [], reconciled := [], txnOpened := false, pruned := false } := by
  intro nowYear now cutoff db feed_ids only_due cancel results perm h
  simp [update_feeds_async, h]

/-- C10 witness: a due-only sweep at a time before every next_fetch selects
nothing and is a complete no-op. -/
theorem C10_empty_selection_witness :
    update_feeds_async 2026 (-1) (-31) demoDb none true (fun _ => false)
        (fun _ => FetchResult.not_modified) [] =
      { db := demoDb, total := 0, checked := 0, updated := 0, errors := 0,
        dispatched := [], reconciled := [], txnOpened := false, pruned := false } :=
  C10_empty_selection 2026 (-1) (-31) demoDb none true (fun _ => false)
    (fun _ => FetchResult.not_modified) [] (by decide)

theorem jmLookup_updJobs_self (l : List (Nat × Job)) (jid : Nat) (g : Job → Job) :
    jmLookup (updJobs l jid g) jid = (jmLookup l jid).map g := by
  induction l with
  | nil => rfl
  | cons q qs ih =>
    by_cases h : q.1 = jid
    · simp [updJobs, jmLookup, h]
    · simp [updJobs, jmLookup, h, ih]

theorem keyFree_mem (k : Nat) (l : List (Nat × Job)) (p : Nat × Job)
    (h : keyFree k l = true) (hp : p ∈ l) : p.1 ≠ k := by
  induction l with
  | nil => cases hp
  | cons q qs ih =>
    simp only [keyFree, Bool.and_eq_true, decide_eq_true_eq] at h
    cases hp with
    | head => exact h.1
    | tail _ hp2 => exact ih h.2 hp2

theorem jmLookup_mem_nodup (l : List (Nat × Job)) (p : Nat × Job)
    (hnd : keysNodup l = true) (hp : p ∈ l) : jmLookup l p.1 = some p.2 := by
  induction l with
  | nil => cases hp
  | cons q qs ih =>
    simp only [keysNodup, Bool.and_eq_true] at hnd
    cases hp with
    | head => simp [jmLookup]
    | tail _ hp2 =>
      have hne : p.1 ≠ q.1 := keyFree_mem q.1 qs p hnd.1 hp2
      simp [jmLookup, Ne.symm hne, ih hnd.2 hp2]

theorem mem_updJobs (l : List (Nat × Job)) (jid : Nat) (g : Job → Job) (p : Nat × Job)
    (hp : p ∈ updJobs l jid g) :
    ∃ q ∈ l, p = if q.1 = jid then (q.1, g q.2) else q := by
  induction l with
  | nil => cases hp
  | cons q qs ih =>
    simp only [updJobs, List.mem_cons] at hp
    cases hp with
    | inl h => exact ⟨q, List.mem_cons_self q qs, h⟩
    | inr h =>
      obtain ⟨q2, hq2, he⟩ := ih h
      exact ⟨q2, List.mem_cons_of_mem q hq2, he⟩

theorem keyFree_updJobs (k : Nat) (l : List (Nat × Job)) (jid : Nat) (g : Job → Job) :
    keyFree k (updJobs l jid g) = keyFree k l := by
  induction l with
  | nil => rfl
  | cons q qs ih =>
    by_cases h : q.1 = jid
    · simp [updJobs, keyFree, h, ih]
    · simp [updJobs, keyFree, h, ih]

theorem keysNodup_updJobs (l : List (Nat × Job)) (jid : Nat) (g : Job → Job) :
    keysNodup (updJobs l jid g) = keysNodup l := by
  induction l with
  | nil => rfl
  | cons q qs ih =>
    by_cases h : q.1 = jid
    · simp [updJobs, keysNodup, h, keyFree_updJobs, ih]
    · simp [updJobs, keysNodup, h, keyFree_updJobs, ih]

theorem keyFree_append_one (k : Nat) (l : List (Nat × Job)) (n : Nat) (j : Job) :
    keyFree k (l ++ [(n, j)]) = (keyFree k l && decide (n ≠ k)) := by
  induction l with
  | nil => simp [keyFree]
  | cons q qs ih => simp [keyFree, ih, Bool.and_assoc]

theorem keysNodup_append_fresh (l : List (Nat × Job)) (n : Nat) (j : Job)
    (hnd : keysNodup l = true) (hb : ∀ p ∈ l, p.1 < n) :
    keysNodup (l ++ [(n, j)]) = true := by
  induction l with
  | nil => rfl
  | cons q qs ih =>
    simp only [keysNodup, Bool.and_eq_true] at hnd
    simp only [List.cons_append, keysNodup, Bool.and_eq_true]
    refine ⟨?_, ih hnd.2 (fun p hp => hb p (List.mem_cons_of_mem q hp))⟩
    show keyFree q.1 (qs ++ [(n, j)]) = true
    rw [keyFree_append_one]
    simp only [Bool.and_eq_true, decide_eq_true_eq]
    exact ⟨hnd.1, Nat.ne_of_gt (hb q (List.mem_cons_self q qs))⟩

theorem jmInv_update (m : JobManager) (jid : Nat) (g : Job → Job)
    (hg : ∀ j, (g j).state ≠ JobState.running) (h : JMInv m) : JMInv (jmUpdate m jid g) := by
  obtain ⟨h1, h2, h3⟩ := h
  refine ⟨?_, ?_, ?_⟩
  · show keysNodup (updJobs m.jobs jid g) = true
    rw [keysNodup_updJobs]
    exact h1
  · intro p hp
    obtain ⟨q, hq, he⟩ := mem_updJobs m.jobs jid g p hp
    subst he
    show (if q.1 = jid then (q.1, g q.2) else q).1 < m.nextId
    by_cases hqj : q.1 = jid
    · rw [if_pos hqj]
      exact h2 q hq
    · rw [if_neg hqj]
      exact h2 q hq
  · intro p hp hrun
    obtain ⟨q, hq, he⟩ := mem_updJobs m.jobs jid g p hp
    subst he
    by_cases hqj : q.1 = jid
    · rw [if_pos hqj] at hrun
      exact absurd hrun (hg q.2)
    · rw [if_neg hqj] at hrun ⊢
      exact h3 q hq hrun

theorem jmInv_startNew (m : JobManager) (h : JMInv m)
    (hnr : ∀ p ∈ m.jobs, p.2.state ≠ JobState.running) : JMInv (jmStartNew m).1 := by
  obtain ⟨h1, h2, h3⟩ := h
  refine ⟨?_, ?_, ?_⟩
  · exact keysNodup_append_fresh m.jobs m.nextId newJob h1 h2
  · intro p hp
    show p.1 < m.nextId + 1
    rcases List.mem_append.mp hp with hl | hr
    · exact Nat.lt_succ_of_lt (h2 p hl)
    · simp only [List.mem_singleton] at hr
      rw [hr]
      exact Nat.lt_succ_self _
  · intro p hp hrun
    show (some m.nextId : Option Nat) = some p.1
    rcases List.mem_append.mp hp with hl | hr
    · exact absurd hrun (hnr p hl)
    · simp only [List.mem_singleton] at hr
      rw [hr]

theorem jmInv_start (m : JobManager) (h : JMInv m) : JMInv (start_update_job m).1 := by
  unfold start_update_job
  cases ha : m.activeId with
  | none =>
    apply jmInv_startNew m h
    intro p hp hrun
    have hact := h.2.2 p hp hrun
    rw [ha] at hact
    cases hact
  | some aid =>
    show JMInv (if (jmFind m aid).map Job.state = some JobState.running then (m, aid)
      else jmStartNew m).1
    by_cases hr : (jmFind m aid).map Job.state = some JobState.running
    · rw [if_pos hr]
      exact h
    · rw [if_neg hr]
      apply jmInv_startNew m h
      intro p hp hrun
      have hact := h.2.2 p hp hrun
      rw [ha] at hact
      have haid : aid = p.1 := by injection hact
      apply hr
      have hfind : jmFind m p.1 = some p.2 := jmLookup_mem_nodup m.jobs p h.1 hp
      rw [haid, hfind]
      simp [hrun]

theorem jmInv_cancel (m : JobManager) (jid : Nat) (h : JMInv m) :
    JMInv (cancel_update_job m jid).1 := by
  unfold cancel_update_job
  cases hf : jmFind m jid with
  | none => exact h
  | some j =>
    by_cases he : j.hasCancelEvent
    · simp only [he, if_true]
      refine jmInv_update m jid _ ?_ h
      intro j2 h2
      exact JobState.noConfusion h2
    · simp only [he, if_false]
      exact h

theorem jmInv_finish (m : JobManager) (jid : Nat) (failed : Bool) (h : JMInv m) :
    JMInv (finish_update_job m jid failed) := by
  unfold finish_update_job
  refine jmInv_update m jid _ ?_ h
  intro j
  cases failed
  · cases hc : j.cancelSet <;> simp [hc]
  · simp

theorem jmInv_reach (m : JobManager) (h : JMReach m) : JMInv m := by
  induction h with
  | init =>
    refine ⟨rfl, ?_, ?_⟩
    · intro p hp
      cases hp
    · intro p hp
      cases hp
  | step hr hs ih =>
    cases hs with
    | start => exact jmInv_start _ ih
    | cancel jid => exact jmInv_cancel _ jid ih
    | finish jid failed hpend => exact jmInv_finish _ jid failed ih

theorem countJobs_eq_zero (p : Job → Bool) (l : List (Nat × Job))
    (h : ∀ x ∈ l, p x.2 = false) : countJobs p l = 0 := by
  induction l with
  | nil => rfl
  | cons q qs ih =>
    simp [countJobs, h q (List.mem_cons_self q qs),
      ih (fun x hx => h x (List.mem_cons_of_mem q hx))]

theorem countJobs_le_one (p : Job → Bool) (l : List (Nat × Job)) (a : Nat)
    (hnd : keysNodup l = true) (h : ∀ x ∈ l, p x.2 = true → x.1 = a) :
    countJobs p l ≤ 1 := by
  induction l with
  | nil => exact Nat.zero_le 1
  | cons q qs ih =>
    simp only [keysNodup, Bool.and_eq_true] at hnd
    by_cases hq : p q.2 = true
    · have hz : ∀ x ∈ qs, p x.2 = false := by
        intro x hx
        by_contra hpx
        have hpx2 : p x.2 = true := by
          revert hpx
          cases p x.2 <;> simp
        have hxa : x.1 = a := h x (List.mem_cons_of_mem q hx) hpx2
        have hqa : q.1 = a := h q (List.mem_cons_self q qs) hq
        exact keyFree_mem q.1 qs x hnd.1 hx (by rw [hxa, hqa])
      simp [countJobs, hq, countJobs_eq_zero p qs hz]
    · have hq2 : p q.2 = false := by
        revert hq
        cases p q.2 <;> simp
      simp only [countJobs, hq2, if_false]
      calc 0 + countJobs p qs = countJobs p qs := Nat.zero_add _
        _ ≤ 1 := ih hnd.2 (fun x hx hpx => h x (List.mem_cons_of_mem q hx) hpx)

theorem runningCount_le_one (m : JobManager) (h : JMInv m) : runningCount m ≤ 1 := by
  cases ha : m.activeId with
  | none =>
    have hz : ∀ x ∈ m.jobs, decide (x.2.state = JobState.running) = false := by
      intro x hx
      apply decide_eq_false
      intro hst
      have hact := h.2.2 x hx hst
      rw [ha] at hact
      cases hact
    unfold runningCount
    rw [countJobs_eq_zero _ _ hz]
    exact Nat.zero_le 1
  | some aid =>
    unfold runningCount
    apply countJobs_le_one _ _ aid h.1
    intro x hx hpx
    have hst : x.2.state = JobState.running := of_decide_eq_true hpx
    have hact := h.2.2 x hx hst
    rw [ha] at hact
    injection hact with h2
    exact h2.symm

theorem jmReach_demo3 : JMReach jmDemo3 :=
  JMReach.step (JMReach.step (JMReach.step JMReach.init (JMStep.start jmInit))
    (JMStep.cancel jmDemo1 0)) (JMStep.start jmDemo2)

/-- C2 amended: at most one Job is in the running state at any reachable
manager state, and a start call made while the active Job is running
returns that identity and changes nothing (no second Job, no second
runner); a Job in the cancelling state may however coexist with a newly
started running Job, so at most one running-or-cancelling does not hold. -/
theorem C2_single_running_amended :
    (∀ m, JMReach m → runningCount m ≤ 1) ∧
    (∀ m aid, m.activeId = some aid →
       (jmFind m aid).map Job.state = some JobState.running →
       start_update_job m = (m, aid)) := by
  constructor
  · intro m hm
    exact runningCount_le_one m (jmInv_reach m hm)
  · intro m aid h1 h2
    simp [start_update_job, h1, h2]

/-- C2 witness: the demo trace has one running job, and a start on a
manager whose active job runs is the identity. -/
theorem C2_single_running_amended_witness :
    runningCount jmDemo3 ≤ 1 ∧ start_update_job jmDemo1 = (jmDemo1, 0) :=
  ⟨C2_single_running_amended.1 jmDemo3 jmReach_demo3,
   C2_single_running_amended.2 jmDemo1 0 (by decide) (by decide)⟩

/-- C2 counterexample: after start, cancel, start, the reachable manager
state holds two jobs in the running-or-cancelling set (job 0 cancelling,
job 1 running), refuting the claim that at most one Job is in the running
or cancelling state at any time. -/
theorem C2_single_running_counterexample :
    JMReach jmDemo3 ∧ busyCount jmDemo3 = 2 ∧
    (jmFind jmDemo3 0).map Job.state = some JobState.cancelling ∧
    (jmFind jmDemo3 1).map Job.state = some JobState.running :=
  ⟨jmReach_demo3, by decide, by decide, by decide⟩

/-- C4 amended: cancelJob returns false exactly for an unknown job id; on
any known job carrying a cancel event (every job the manager creates) it
sets the signal, records state cancelling and returns true, regardless of
the prior state — terminal states included, so they are not immutable
under cancel. -/
theorem C4_cancel_amended : ∀ m jid,
    (jmFind m jid = none → cancel_update_job m jid = (m, false)) ∧
    (∀ j, jmFind m jid = some j → j.hasCancelEvent = true →
       (cancel_update_job m jid).2 = true ∧
       (jmFind (cancel_update_job m jid).1 jid).map Job.state = some JobState.cancelling) := by
  intro m jid
  constructor
  · intro h
    simp [cancel_update_job, h]
  · intro j hj he
    have hj2 : jmLookup m.jobs jid = some j := hj
    simp only [cancel_update_job, hj, he, if_true]
    refine ⟨trivial, ?_⟩
    show (jmLookup (updJobs m.jobs jid
        (fun j => { j with cancelSet := true, state := JobState.cancelling })) jid).map Job.state =
      some JobState.cancelling
    rw [jmLookup_updJobs_self, hj2]
    rfl

/-- C4 witness: cancel on an unknown id is a rejected no-op, and cancel on
the completed demo job returns true and records cancelling. -/
theorem C4_cancel_amended_witness :
    cancel_update_job jmInit 5 = (jmInit, false) ∧
    (cancel_update_job jmDoneDemo 0).2 = true ∧
    (jmFind (cancel_update_job jmDoneDemo 0).1 0).map Job.state = some JobState.cancelling :=
  ⟨(C4_cancel_amended jmInit 5).1 rfl,
   ((C4_cancel_amended jmDoneDemo 0).2
     { state := JobState.done, hasCancelEvent := true, cancelSet := false, runnerPending := false }
     (by decide) rfl).1,
   ((C4_cancel_amended jmDoneDemo 0).2
     { state := JobState.done, hasCancelEvent := true, cancelSet := false, runnerPending := false }
     (by decide) rfl).2⟩

/-- C4 counterexample: in the reachable state where job 0 has completed
(state done, a terminal state), cancelJob returns true — not false — and
mutates the terminal state to cancelling, refuting both the no-effect and
the returns-false parts of the claim. -/
theorem C4_cancel_counterexample :
    JMReach jmDoneDemo ∧
    (jmFind jmDoneDemo 0).map Job.state = some JobState.done ∧
    (cancel_update_job jmDoneDemo 0).2 = true ∧
    (jmFind (cancel_update_job jmDoneDemo 0).1 0).map Job.state = some JobState.cancelling := by
  refine ⟨?_, by decide, by decide, by decide⟩
  exact JMReach.step (JMReach.step JMReach.init (JMStep.start jmInit))
    (JMStep.finish jmDemo1 0 false (by decide))

theorem entryLoop_feeds (cancel : Nat → Bool) (nowYear now cutoff : Int) (fid : Nat)
    (es : List ParsedEntry) (db : DB) (c : Nat) :
    (entryLoop cancel nowYear now cutoff fid es db c).db.feeds = db.feeds := by
  induction es generalizing db c with
  | nil => rfl
  | cons e es ih =>
    simp only [entryLoop]
    by_cases hc : cancel c
    · simp [hc]
    · simp only [hc, if_false]
      by_cases hp : entry_published_ts nowYear now e < cutoff
      · simp [hp, ih]
      · simp only [hp, if_false]
        by_cases hk : hasEntryKey db.entries fid e.guid
        · simp [hk, ih]
        · simp [hk, ih]

theorem applyResult_ok_row (cancel : Nat → Bool) (nowYear now cutoff : Int) (db : DB)
    (fid : Nat) (p : ParsedFeed) (etag lm : Option String) (c : Nat) (f : FeedRow)
    (hf : findFeed db fid = some f) :
    findFeed (applyResult cancel nowYear now cutoff db fid (FetchResult.ok p etag lm) c).db fid =
      some (nfUpd now
        (monthCountOf (entryLoop cancel nowYear now cutoff fid p.entries
          (updateFeedRow db fid (okUpd now p.title etag lm)) c).db fid cutoff)
        (mcUpd (monthCountOf (entryLoop cancel nowYear now cutoff fid p.entries
          (updateFeedRow db fid (okUpd now p.title etag lm)) c).db fid cutoff)
        (okUpd now p.title etag lm f))) := by
  have h1 : findFeed (updateFeedRow db fid (okUpd now p.title etag lm)) fid =
      some (okUpd now p.title etag lm f) := by
    rw [findFeed_updateFeedRow_self db fid _ (okUpd_id now p.title etag lm), hf]
    rfl
  have h2 : findFeed (entryLoop cancel nowYear now cutoff fid p.entries
      (updateFeedRow db fid (okUpd now p.title etag lm)) c).db fid =
      some (okUpd now p.title etag lm f) := by
    show findRow (entryLoop cancel nowYear now cutoff fid p.entries
      (updateFeedRow db fid (okUpd now p.title etag lm)) c).db.feeds fid = _
    rw [entryLoop_feeds]
    exact h1
  simp only [applyResult, recompute_month_count]
  rw [findFeed_updateFeedRow_self _ fid _ (nfUpd_id now _),
      findFeed_updateFeedRow_self _ fid _ (mcUpd_id _), h2]
  rfl

theorem applyResult_frame (cancel : Nat → Bool) (nowYear now cutoff : Int) (db : DB)
    (fid : Nat) (r : FetchResult) (c : Nat) (j : Nat) (hj : j ≠ fid) :
    findFeed (applyResult cancel nowYear now cutoff db fid r c).db j = findFeed db j := by
  cases r with
  | not_modified => exact findFeed_updateFeedRow_other db fid j _ (nmUpd_id now _) hj
  | http_error s => exact findFeed_updateFeedRow_other db fid j _ (errUpd_id now _) hj
  | exn s => exact findFeed_updateFeedRow_other db fid j _ (errUpd_id now _) hj
  | ok p etag lm =>
    simp only [applyResult, recompute_month_count]
    rw [findFeed_updateFeedRow_other _ fid j _ (nfUpd_id now _) hj,
        findFeed_updateFeedRow_other _ fid j _ (mcUpd_id _) hj]
    show findRow (entryLoop cancel nowYear now cutoff fid p.entries
      (updateFeedRow db fid (okUpd now p.title etag lm)) c).db.feeds j = _
    rw [entryLoop_feeds]
    exact findFeed_updateFeedRow_other db fid j _ (okUpd_id now p.title etag lm) hj

/-- C6: after the reconciler processes an ok or not-modified result the
fail_count of the feed is exactly 0; after an http-error or exception
result it is the prior value plus one; and reconciliation of one feed
changes no other feed row, so fail_count changes in no other way. -/
theorem C6_fail_count : ∀ cancel nowYear now cutoff db fid r c f,
    findFeed db fid = some f →
    ((FetchResult.isErrKind r = false →
       (findFeed (applyResult cancel nowYear now cutoff db fid r c).db fid).map
         FeedRow.fail_count = some 0) ∧
     (FetchResult.isErrKind r = true →
       (findFeed (applyResult cancel nowYear now cutoff db fid r c).db fid).map
         FeedRow.fail_count = some (f.fail_count + 1)) ∧
     (∀ j, j ≠ fid →
       findFeed (applyResult cancel nowYear now cutoff db fid r c).db j = findFeed db j)) := by
  intro cancel nowYear now cutoff db fid r c f hf
  refine ⟨?_, ?_, fun j hj => applyResult_frame cancel nowYear now cutoff db fid r c j hj⟩
  · intro hr
    cases r with
    | not_modified =>
      show (findFeed (updateFeedRow db fid
        (nmUpd now (((findFeed db fid).map FeedRow.month_count).getD 0))) fid).map
          FeedRow.fail_count = some 0
      rw [findFeed_updateFeedRow_self db fid _ (nmUpd_id now _), hf]
      rfl
    | http_error s => cases hr
    | exn s => cases hr
    | ok p etag lm =>
      rw [applyResult_ok_row cancel nowYear now cutoff db fid p etag lm c f hf]
      rfl
  · intro hr
    cases r with
    | not_modified => cases hr
    | http_error s =>
      rw [show applyResult cancel nowYear now cutoff db fid (FetchResult.http_error s) c =
            applyErr now db fid c from rfl,
          applyErr_row now db fid c f hf]
      rfl
    | exn s =>
      rw [show applyResult cancel nowYear now cutoff db fid (FetchResult.exn s) c =
            applyErr now db fid c from rfl,
          applyErr_row now db fid c f hf]
      rfl
    | ok p etag lm => cases hr

/-- C6 witness: concrete reconciliations on the demo store. -/
theorem C6_fail_count_witness :
    (findFeed (applyResult (fun _ => false) 2026 1000 0 demoDb 1
        FetchResult.not_modified 0).db 1).map FeedRow.fail_count = some 0 ∧
    (findFeed (applyResult (fun _ => false) 2026 1000 0 demoDb 1
        (FetchResult.exn "boom") 0).db 1).map FeedRow.fail_count = some 1 ∧
    findFeed (applyResult (fun _ => false) 2026 1000 0 demoDb 1
        FetchResult.not_modified 0).db 7 = findFeed demoDb 7 :=
  ⟨(C6_fail_count (fun _ => false) 2026 1000 0 demoDb 1 FetchResult.not_modified 0
      (mkFeed 1 "http://a.example/feed" none) (by decide)).1 rfl,
   (C6_fail_count (fun _ => false) 2026 1000 0 demoDb 1 (FetchResult.exn "boom") 0
      (mkFeed 1 "http://a.example/feed" none) (by decide)).2.1 rfl,
   (C6_fail_count (fun _ => false) 2026 1000 0 demoDb 1 FetchResult.not_modified 0
      (mkFeed 1 "http://a.example/feed" none) (by decide)).2.2 7 (by decide)⟩

/-- C5 amended: in the sweep reconciler the stored title is set to
COALESCE(parsed, stored): a parsed title always overwrites the stored one,
the stored title survives only when the body carries none; only the
feed-create endpoint updates the title exclusively when it was previously
unset. -/
theorem C5_title_amended :
    (∀ cancel nowYear now cutoff db fid p etag lm c f, findFeed db fid = some f →
       (findFeed (applyResult cancel nowYear now cutoff db fid
          (FetchResult.ok p etag lm) c).db fid).map FeedRow.title =
         some (coalesce p.title f.title)) ∧
    (∀ t old, coalesce (some t) old = some t) ∧
    (∀ old, coalesce none old = old) ∧
    (∀ t, feed_create_title (some t) none = some t) ∧
    (∀ l e, e.isSome = true → feed_create_title l e = e) ∧
    feed_create_title none none = none := by
  refine ⟨?_, fun t old => rfl, fun old => rfl, fun t => rfl, ?_, rfl⟩
  · intro cancel nowYear now cutoff db fid p etag lm c f hf
    rw [applyResult_ok_row cancel nowYear now cutoff db fid p etag lm c f hf]
    rfl
  · intro l e he
    cases e with
    | none => cases he
    | some x => cases l <;> rfl

/-- C5 witness: on the demo store with stored title Old, an ok body with
title New leaves COALESCE(New, Old) = New in the row. -/
theorem C5_title_amended_witness :
    (findFeed (applyResult (fun _ => false) 2026 1000 0 demoTitledDb 1
        (FetchResult.ok demoParsedNew none none) 0).db 1).map FeedRow.title =
      some (coalesce demoParsedNew.title (some "Old")) ∧
    coalesce (some "New") (some "Old") = some "New" ∧
    feed_create_title (some "New") (some "Old") = some "Old" :=
  ⟨C5_title_amended.1 (fun _ => false) 2026 1000 0 demoTitledDb 1 demoParsedNew none none 0
      (mkFeed 1 "http://a.example/feed" (some "Old")) (by decide),
   C5_title_amended.2.1 "New" (some "Old"),
   C5_title_amended.2.2.2.2.1 (some "New") (some "Old") rfl⟩

/-- C5 counterexample: a feed row already carrying the title Old has it
overwritten by the title New learned from the fetched body, refuting that
a previously set title is never overwritten by the reconciler. -/
theorem C5_title_counterexample :
    (findFeed demoTitledDb 1).map FeedRow.title = some (some "Old") ∧
    (findFeed (applyResult (fun _ => false) 2026 1000 0 demoTitledDb 1
        (FetchResult.ok demoParsedNew none none) 0).db 1).map FeedRow.title =
      some (some "New") := by
  exact ⟨by decide, by decide⟩

theorem hasEntryKey_append (l1 l2 : List EntryRow) (fid : Nat) (g : String) :
    hasEntryKey (l1 ++ l2) fid g = (hasEntryKey l1 fid g || hasEntryKey l2 fid g) := by
  induction l1 with
  | nil => rfl
  | cons e l ih => simp [hasEntryKey, ih, Bool.or_assoc]

theorem entryLoop_entries_shape (cancel : Nat → Bool) (nowYear now cutoff : Int) (fid : Nat)
    (es : List ParsedEntry) (db : DB) (c : Nat) :
    ∃ l, (entryLoop cancel nowYear now cutoff fid es db c).db.entries = db.entries ++ l ∧
      ∀ e ∈ l, e.feed_id = fid ∧ cutoff ≤ e.published := by
  induction es generalizing db c with
  | nil => exact ⟨[], by simp [entryLoop], fun e he => absurd he (List.not_mem_nil e)⟩
  | cons e es ih =>
    simp only [entryLoop]
    by_cases hc : cancel c
    · simp only [hc, if_true]
      exact ⟨[], by simp, fun x hx => absurd hx (List.not_mem_nil x)⟩
    · simp only [hc, if_false]
      by_cases hp : entry_published_ts nowYear now e < cutoff
      · simp only [hp, if_true]
        exact ih db (c + 1)
      · simp only [hp, if_false]
        by_cases hk : hasEntryKey db.entries fid e.guid
        · simp only [hk, if_true]
          exact ih db (c + 1)
        · simp only [hk, if_false]
          obtain ⟨l, hl, hprop⟩ := ih { db with entries := db.entries ++
            [mkEntryRow fid now (entry_published_ts nowYear now e) e] } (c + 1)
          refine ⟨mkEntryRow fid now (entry_published_ts nowYear now e) e :: l, ?_, ?_⟩
          · show (entryLoop cancel nowYear now cutoff fid es
              { db with entries := db.entries ++
                [mkEntryRow fid now (entry_published_ts nowYear now e) e] } (c + 1)).db.entries =
              db.entries ++ (mkEntryRow fid now (entry_published_ts nowYear now e) e :: l)
            rw [hl, List.append_assoc]
            rfl
          · intro x hx
            rcases List.mem_cons.mp hx with hx0 | hxl
            · subst hx0
              exact ⟨rfl, Int.not_lt.mp hp⟩
            · exact hprop x hxl

theorem entryLoop_key_mono (cancel : Nat → Bool) (nowYear now cutoff : Int) (fid : Nat)
    (es : List ParsedEntry) (db : DB) (c : Nat) (fid2 : Nat) (g : String)
    (h : hasEntryKey db.entries fid2 g = true) :
    hasEntryKey (entryLoop cancel nowYear now cutoff fid es db c).db.entries fid2 g = true := by
  obtain ⟨l, hl, _⟩ := entryLoop_entries_shape cancel nowYear now cutoff fid es db c
  rw [hl, hasEntryKey_append, h]
  rfl

theorem entryLoop_nocancel_cons (nowYear now cutoff : Int) (fid : Nat) (e : ParsedEntry)
    (es : List ParsedEntry) (db : DB) (c : Nat) :
    entryLoop (fun _ => false) nowYear now cutoff fid (e :: es) db c =
      (if entry_published_ts nowYear now e < cutoff then
        entryLoop (fun _ => false) nowYear now cutoff fid es db (c + 1)
      else if hasEntryKey db.entries fid e.guid then
        entryLoop (fun _ => false) nowYear now cutoff fid es db (c + 1)
      else
        (fun out => ⟨out.db, true, out.ctr⟩)
          (entryLoop (fun _ => false) nowYear now cutoff fid es
            { db with entries := db.entries ++
              [mkEntryRow fid now (entry_published_ts nowYear now e) e] } (c + 1))) := rfl

theorem entryLoop_covers (nowYear now cutoff : Int) (fid : Nat) (es : List ParsedEntry)
    (db : DB) (c : Nat) :
    ∀ e ∈ es, ¬(entry_published_ts nowYear now e < cutoff) →
      hasEntryKey (entryLoop (fun _ => false) nowYear now cutoff fid es db c).db.entries
        fid e.guid = true := by
  induction es generalizing db c with
  | nil =>
    intro e he
    cases he
  | cons e0 es ih =>
    intro e he hpe
    rw [entryLoop_nocancel_cons]
    rcases List.mem_cons.mp he with he0 | hes
    · subst he0
      rw [if_neg hpe]
      by_cases hk : hasEntryKey db.entries fid e.guid
      · rw [if_pos hk]
        exact entryLoop_key_mono _ nowYear now cutoff fid es db (c + 1) fid e.guid hk
      · rw [if_neg hk]
        refine entryLoop_key_mono _ nowYear now cutoff fid es _ (c + 1) fid e.guid ?_
        rw [hasEntryKey_append]
        simp [hasEntryKey, mkEntryRow]
    · by_cases hp0 : entry_published_ts nowYear now e0 < cutoff
      · rw [if_pos hp0]
        exact ih db (c + 1) e hes hpe
      · rw [if_neg hp0]
        by_cases hk0 : hasEntryKey db.entries fid e0.guid
        · rw [if_pos hk0]
          exact ih db (c + 1) e hes hpe
        · rw [if_neg hk0]
          exact ih _ (c + 1) e hes hpe

theorem entryLoop_noop (nowYear now cutoff : Int) (fid : Nat) (es : List ParsedEntry)
    (db : DB) (c : Nat)
    (h : ∀ e ∈ es, entry_published_ts nowYear now e < cutoff ∨
         hasEntryKey db.entries fid e.guid = true) :
    (entryLoop (fun _ => false) nowYear now cutoff fid es db c).db = db ∧
    (entryLoop (fun _ => false) nowYear now cutoff fid es db c).added = false := by
  revert c h
  induction es with
  | nil =>
    intro c h
    exact ⟨rfl, rfl⟩
  | cons e es ih =>
    intro c h
    rw [entryLoop_nocancel_cons]
    by_cases hp : entry_published_ts nowYear now e < cutoff
    · rw [if_pos hp]
      exact ih (c + 1) (fun e2 he2 => h e2 (List.mem_cons_of_mem e he2))
    · have hk : hasEntryKey db.entries fid e.guid = true := by
        rcases h e (List.mem_cons_self e es) with hp2 | hk2
        · exact absurd hp2 hp
        · exact hk2
      rw [if_neg hp, if_pos hk]
      exact ih (c + 1) (fun e2 he2 => h e2 (List.mem_cons_of_mem e he2))

theorem noKeyClash_append_one (x row : EntryRow) (l : List EntryRow) :
    noKeyClash x (l ++ [row]) =
      (noKeyClash x l && decide (¬(row.feed_id = x.feed_id ∧ row.guid = x.guid))) := by
  induction l with
  | nil => simp [noKeyClash]
  | cons y l ih => simp [noKeyClash, ih, Bool.and_assoc]

theorem entriesNodupKeys_append_one (l : List EntryRow) (row : EntryRow)
    (hnd : entriesNodupKeys l = true)
    (hk : hasEntryKey l row.feed_id row.guid = false) :
    entriesNodupKeys (l ++ [row]) = true := by
  induction l with
  | nil => rfl
  | cons x l ih =>
    simp only [entriesNodupKeys, Bool.and_eq_true] at hnd
    have hk2 : decide (x.feed_id = row.feed_id ∧ x.guid = row.guid) = false ∧
        hasEntryKey l row.feed_id row.guid = false := by
      revert hk
      simp only [hasEntryKey, Bool.or_eq_false_iff]
      exact id
    show (noKeyClash x (l ++ [row]) && entriesNodupKeys (l ++ [row])) = true
    rw [noKeyClash_append_one]
    simp only [Bool.and_eq_true]
    refine ⟨⟨hnd.1, ?_⟩, ih hnd.2 hk2.2⟩
    simp only [decide_eq_true_eq]
    intro hcon
    exact (of_decide_eq_false hk2.1) ⟨hcon.1.symm, hcon.2.symm⟩

theorem entryLoop_nodup (cancel : Nat → Bool) (nowYear now cutoff : Int) (fid : Nat)
    (es : List ParsedEntry) (db : DB) (c : Nat)
    (hnd : entriesNodupKeys db.entries = true) :
    entriesNodupKeys (entryLoop cancel nowYear now cutoff fid es db c).db.entries = true := by
  revert c hnd
  induction es generalizing db with
  | nil =>
    intro c hnd
    exact hnd
  | cons e es ih =>
    intro c hnd
    simp only [entryLoop]
    by_cases hc : cancel c
    · simp only [hc, if_true]
      exact hnd
    · simp only [hc, if_false]
      by_cases hp : entry_published_ts nowYear now e < cutoff
      · simp only [hp, if_true]
        exact ih db (c + 1) hnd
      · simp only [hp, if_false]
        by_cases hk : hasEntryKey db.entries fid e.guid
        · simp only [hk, if_true]
          exact ih db (c + 1) hnd
        · simp only [hk, if_false]
          refine ih _ (c + 1) ?_
          exact entriesNodupKeys_append_one db.entries _ hnd
            (Bool.eq_false_iff.mpr hk)

theorem applyResult_ok_entries (cancel : Nat → Bool) (nowYear now cutoff : Int) (db : DB)
    (fid : Nat) (p : ParsedFeed) (etag lm : Option String) (c : Nat) :
    (applyResult cancel nowYear now cutoff db fid (FetchResult.ok p etag lm) c).db.entries =
      (entryLoop cancel nowYear now cutoff fid p.entries
        (updateFeedRow db fid (okUpd now p.title etag lm)) c).db.entries := rfl

theorem applyResult_ok_added (cancel : Nat → Bool) (nowYear now cutoff : Int) (db : DB)
    (fid : Nat) (p : ParsedFeed) (etag lm : Option String) (c : Nat) :
    (applyResult cancel nowYear now cutoff db fid (FetchResult.ok p etag lm) c).added =
      (entryLoop cancel nowYear now cutoff fid p.entries
        (updateFeedRow db fid (okUpd now p.title etag lm)) c).added := rfl

theorem monthCountOf_congr (db1 db2 : DB) (fid : Nat) (cutoff : Int)
    (h : db1.entries = db2.entries) :
    monthCountOf db1 fid cutoff = monthCountOf db2 fid cutoff := by
  unfold monthCountOf
  rw [h]

/-- C7: reconciling the same parsed feed body twice is idempotent on the
entries table — the second pass inserts nothing (added = false), the table
after the second pass equals the table after the first, the UNIQUE
(feed_id, guid) key set stays duplicate free, and month_count after the
second reconciliation equals its value after the first. -/
theorem C7_idempotent_insert : ∀ nowYear now cutoff db fid p etag lm c1 c2 f,
    findFeed db fid = some f →
    entriesNodupKeys db.entries = true →
    ((applyResult (fun _ => false) nowYear now cutoff
        (applyResult (fun _ => false) nowYear now cutoff db fid (FetchResult.ok p etag lm) c1).db
        fid (FetchResult.ok p etag lm) c2).db.entries =
      (applyResult (fun _ => false) nowYear now cutoff db fid
        (FetchResult.ok p etag lm) c1).db.entries) ∧
    ((applyResult (fun _ => false) nowYear now cutoff
        (applyResult (fun _ => false) nowYear now cutoff db fid (FetchResult.ok p etag lm) c1).db
        fid (FetchResult.ok p etag lm) c2).added = false) ∧
    entriesNodupKeys (applyResult (fun _ => false) nowYear now cutoff db fid
        (FetchResult.ok p etag lm) c1).db.entries = true ∧
    ((findFeed (applyResult (fun _ => false) nowYear now cutoff
        (applyResult (fun _ => false) nowYear now cutoff db fid (FetchResult.ok p etag lm) c1).db
        fid (FetchResult.ok p etag lm) c2).db fid).map FeedRow.month_count =
      (findFeed (applyResult (fun _ => false) nowYear now cutoff db fid
        (FetchResult.ok p etag lm) c1).db fid).map FeedRow.month_count) := by
  intro nowYear now cutoff db fid p etag lm c1 c2 f hf hnd
  have hA1entries : (applyResult (fun _ => false) nowYear now cutoff db fid
      (FetchResult.ok p etag lm) c1).db.entries =
      (entryLoop (fun _ => false) nowYear now cutoff fid p.entries
        (updateFeedRow db fid (okUpd now p.title etag lm)) c1).db.entries :=
    applyResult_ok_entries _ nowYear now cutoff db fid p etag lm c1
  have hcov : ∀ e ∈ p.entries, entry_published_ts nowYear now e < cutoff ∨
      hasEntryKey (updateFeedRow (applyResult (fun _ => false) nowYear now cutoff db fid
        (FetchResult.ok p etag lm) c1).db fid (okUpd now p.title etag lm)).entries
        fid e.guid = true := by
    intro e he
    by_cases hp : entry_published_ts nowYear now e < cutoff
    · exact Or.inl hp
    · right
      show hasEntryKey (applyResult (fun _ => false) nowYear now cutoff db fid
        (FetchResult.ok p etag lm) c1).db.entries fid e.guid = true
      rw [hA1entries]
      exact entryLoop_covers nowYear now cutoff fid p.entries
        (updateFeedRow db fid (okUpd now p.title etag lm)) c1 e he hp
  have hnoop := entryLoop_noop nowYear now cutoff fid p.entries
    (updateFeedRow (applyResult (fun _ => false) nowYear now cutoff db fid
      (FetchResult.ok p etag lm) c1).db fid (okUpd now p.title etag lm)) c2 hcov
  refine ⟨?_, ?_, ?_, ?_⟩
  · rw [applyResult_ok_entries, hnoop.1]
    rfl
  · rw [applyResult_ok_added, hnoop.2]
  · rw [hA1entries]
    exact entryLoop_nodup _ nowYear now cutoff fid p.entries _ c1 hnd
  · have hf2 := applyResult_ok_row (fun _ => false) nowYear now cutoff db fid p etag lm c1 f hf
    have hf3 := applyResult_ok_row (fun _ => false) nowYear now cutoff
      (applyResult (fun _ => false) nowYear now cutoff db fid (FetchResult.ok p etag lm) c1).db
      fid p etag lm c2 _ hf2
    rw [hf2, hf3]
    show some (monthCountOf (entryLoop (fun _ => false) nowYear now cutoff fid p.entries
        (updateFeedRow (applyResult (fun _ => false) nowYear now cutoff db fid
          (FetchResult.ok p etag lm) c1).db fid (okUpd now p.title etag lm)) c2).db fid cutoff) =
      some (monthCountOf (entryLoop (fun _ => false) nowYear now cutoff fid p.entries
        (updateFeedRow db fid (okUpd now p.title etag lm)) c1).db fid cutoff)
    congr 1
    apply monthCountOf_congr
    rw [hnoop.1]
    show (applyResult (fun _ => false) nowYear now cutoff db fid
      (FetchResult.ok p etag lm) c1).db.entries = _
    rw [hA1entries]

/-- C7 witness: reconciling the demo body twice on the demo store changes
nothing the second time. -/
theorem C7_idempotent_insert_witness :
    ((applyResult (fun _ => false) 2026 1000 0
        (applyResult (fun _ => false) 2026 1000 0 demoDb 1
          (FetchResult.ok demoParsedBody none none) 0).db
        1 (FetchResult.ok demoParsedBody none none) 5).db.entries =
      (applyResult (fun _ => false) 2026 1000 0 demoDb 1
        (FetchResult.ok demoParsedBody none none) 0).db.entries) ∧
    ((applyResult (fun _ => false) 2026 1000 0
        (applyResult (fun _ => false) 2026 1000 0 demoDb 1
          (FetchResult.ok demoParsedBody none none) 0).db
        1 (FetchResult.ok demoParsedBody none none) 5).added = false) ∧
    entriesNodupKeys (applyResult (fun _ => false) 2026 1000 0 demoDb 1
        (FetchResult.ok demoParsedBody none none) 0).db.entries = true ∧
    ((findFeed (applyResult (fun _ => false) 2026 1000 0
        (applyResult (fun _ => false) 2026 1000 0 demoDb 1
          (FetchResult.ok demoParsedBody none none) 0).db
        1 (FetchResult.ok demoParsedBody none none) 5).db 1).map FeedRow.month_count =
      (findFeed (applyResult (fun _ => false) 2026 1000 0 demoDb 1
        (FetchResult.ok demoParsedBody none none) 0).db 1).map FeedRow.month_count) :=
  C7_idempotent_insert 2026 1000 0 demoDb 1 demoParsedBody none none 0 5
    (mkFeed 1 "http://a.example/feed" none) (by decide) rfl

theorem applyResult_entries_origin (cancel : Nat → Bool) (nowYear now cutoff : Int)
    (db : DB) (fid : Nat) (r : FetchResult) (c : Nat) (e : EntryRow)
    (he : e ∈ (applyResult cancel nowYear now cutoff db fid r c).db.entries) :
    e ∈ db.entries ∨ cutoff ≤ e.published := by
  cases r with
  | not_modified => exact Or.inl he
  | http_error s => exact Or.inl he
  | exn s => exact Or.inl he
  | ok p etag lm =>
    rw [applyResult_ok_entries] at he
    obtain ⟨l, hl, hprop⟩ := entryLoop_entries_shape cancel nowYear now cutoff fid p.entries
      (updateFeedRow db fid (okUpd now p.title etag lm)) c
    rw [hl] at he
    rcases List.mem_append.mp he with h1 | h2
    · exact Or.inl h1
    · exact Or.inr (hprop e h2).2

theorem applyResult_entries_mono (cancel : Nat → Bool) (nowYear now cutoff : Int)
    (db : DB) (fid : Nat) (r : FetchResult) (c : Nat) (e : EntryRow)
    (he : e ∈ db.entries) :
    e ∈ (applyResult cancel nowYear now cutoff db fid r c).db.entries := by
  cases r with
  | not_modified => exact he
  | http_error s => exact he
  | exn s => exact he
  | ok p etag lm =>
    rw [applyResult_ok_entries]
    obtain ⟨l, hl, _⟩ := entryLoop_entries_shape cancel nowYear now cutoff fid p.entries
      (updateFeedRow db fid (okUpd now p.title etag lm)) c
    rw [hl]
    exact List.mem_append_left l he

theorem resultLoop_entries_mono (cancel : Nat → Bool) (nowYear now cutoff : Int)
    (arr : List (Nat × FetchResult)) (db : DB) (c : Nat) (e : EntryRow)
    (he : e ∈ db.entries) :
    e ∈ (resultLoop cancel nowYear now cutoff arr db c).db.entries := by
  induction arr generalizing db c with
  | nil => exact he
  | cons a rs ih =>
    obtain ⟨fid, r⟩ := a
    simp only [resultLoop]
    by_cases hc : cancel c
    · simp only [hc, if_true]
      exact he
    · simp only [hc, if_false]
      exact ih _ _ (applyResult_entries_mono cancel nowYear now cutoff db fid r (c + 1) e he)

theorem pruneOld_mem (cutoff : Int) (db : DB) (e : EntryRow) :
    e ∈ (pruneOld cutoff db).entries ↔
      e ∈ db.entries ∧ (e.bookmarked = true ∨ cutoff ≤ e.published) := by
  simp only [pruneOld, List.mem_filter]
  constructor
  · rintro ⟨h1, h2⟩
    refine ⟨h1, ?_⟩
    cases hb : e.bookmarked
    · by_cases hp : e.published < cutoff
      · rw [hb] at h2
        simp [hp] at h2
      · exact Or.inr (Int.not_lt.mp hp)
    · exact Or.inl rfl
  · rintro ⟨h1, h2⟩
    refine ⟨h1, ?_⟩
    rcases h2 with hb | hp
    · simp [hb]
    · simp [Int.not_lt.mpr hp]

theorem sweep_empty_eq (nowYear now cutoff : Int) (db : DB) (feed_ids : Option (List Nat))
    (only_due : Bool) (cancel : Nat → Bool) (results : Nat → FetchResult) (perm : List Nat)
    (h : selectFeeds db feed_ids only_due now = []) :
    update_feeds_async nowYear now cutoff db feed_ids only_due cancel results perm =
      { db := db, total := 0, checked := 0, updated := 0, errors := 0,
        dispatched := [], reconciled := [], txnOpened := false, pruned := false } := by
  simp [update_feeds_async, h]

theorem sweep_db_nonempty (nowYear now cutoff : Int) (db : DB) (feed_ids : Option (List Nat))
    (only_due : Bool) (cancel : Nat → Bool) (results : Nat → FetchResult) (perm : List Nat)
    (h : ¬selectFeeds db feed_ids only_due now = []) :
    (update_feeds_async nowYear now cutoff db feed_ids only_due cancel results perm).db =
      pruneOld cutoff (resultLoop cancel nowYear now cutoff
        (perm.map (fun fid => (fid, results fid))) db
        (dispatchLoop cancel (selectFeeds db feed_ids only_due now) 0).2).db := by
  simp only [update_feeds_async]
  rw [if_neg (fun hlen => h (List.length_eq_zero.mp hlen))]

/-- C8: the reconciler never inserts an entry older than the retention
cutoff and never deletes an entry; the pruning pass keeps exactly the
entries that are bookmarked or newer than the cutoff; and across a whole
sweep the only entries that disappear are old unbookmarked ones, all of
which the single post-sweep batch prune removes when any feed was
selected. -/
theorem C8_retention :
    (∀ cancel nowYear now cutoff db fid r c e,
       e ∈ (applyResult cancel nowYear now cutoff db fid r c).db.entries →
       e ∈ db.entries ∨ cutoff ≤ e.published) ∧
    (∀ cancel nowYear now cutoff db fid r c e,
       e ∈ db.entries → e ∈ (applyResult cancel nowYear now cutoff db fid r c).db.entries) ∧
    (∀ cutoff db e, e ∈ (pruneOld cutoff db).entries ↔
       e ∈ db.entries ∧ (e.bookmarked = true ∨ cutoff ≤ e.published)) ∧
    (∀ nowYear now cutoff db feed_ids only_due cancel results perm e,
       e ∈ db.entries →
       e ∉ (update_feeds_async nowYear now cutoff db feed_ids only_due cancel
         results perm).db.entries →
       e.published < cutoff ∧ e.bookmarked = false) ∧
    (∀ nowYear now cutoff db feed_ids only_due cancel results perm e,
       selectFeeds db feed_ids only_due now ≠ [] →
       e ∈ db.entries → e.published < cutoff → e.bookmarked = false →
       e ∉ (update_feeds_async nowYear now cutoff db feed_ids only_due cancel
         results perm).db.entries) := by
  refine ⟨applyResult_entries_origin, applyResult_entries_mono,
    pruneOld_mem, ?_, ?_⟩
  · intro nowYear now cutoff db feed_ids only_due cancel results perm e he hnotin
    by_cases hsel : selectFeeds db feed_ids only_due now = []
    · rw [sweep_empty_eq nowYear now cutoff db feed_ids only_due cancel results perm hsel]
        at hnotin
      exact absurd he hnotin
    · rw [sweep_db_nonempty nowYear now cutoff db feed_ids only_due cancel results perm hsel]
        at hnotin
      have hin : e ∈ (resultLoop cancel nowYear now cutoff
          (perm.map (fun fid => (fid, results fid))) db
          (dispatchLoop cancel (selectFeeds db feed_ids only_due now) 0).2).db.entries :=
        resultLoop_entries_mono cancel nowYear now cutoff _ db _ e he
      rw [pruneOld_mem] at hnotin
      have hno : ¬(e.bookmarked = true ∨ cutoff ≤ e.published) :=
        fun hor => hnotin ⟨hin, hor⟩
      constructor
      · by_contra hc2
        exact hno (Or.inr (Int.not_lt.mp hc2))
      · cases hb : e.bookmarked
        · rfl
        · exact absurd (Or.inl hb) hno
  · intro nowYear now cutoff db feed_ids only_due cancel results perm e hne he hp hb
    rw [sweep_db_nonempty nowYear now cutoff db feed_ids only_due cancel results perm hne]
    intro hmem
    rw [pruneOld_mem] at hmem
    rcases hmem.2 with hb2 | hp2
    · rw [hb] at hb2
      cases hb2
    · exact absurd hp (Int.not_lt.mpr hp2)

/-- C8 witness: in the demo store the bookmarked outdated entry survives
the prune, the plain outdated entry is removed by a sweep, and the
reconciler keeps existing entries. -/
theorem C8_retention_witness :
    demoBookRow ∈ (pruneOld 0 demoPruneDb).entries ∧
    demoPlainRow ∉ (update_feeds_async 2026 1000 0 demoPruneDb none true (fun _ => false)
      (fun _ => FetchResult.not_modified) [1]).db.entries ∧
    demoBookRow ∈ (applyResult (fun _ => false) 2026 1000 0 demoPruneDb 1
      FetchResult.not_modified 0).db.entries :=
  ⟨(C8_retention.2.2.1 0 demoPruneDb demoBookRow).mpr ⟨by decide, Or.inl rfl⟩,
   C8_retention.2.2.2.2 2026 1000 0 demoPruneDb none true (fun _ => false)
     (fun _ => FetchResult.not_modified) [1] demoPlainRow (by decide) (by decide)
     (by decide) rfl,
   C8_retention.2.1 (fun _ => false) 2026 1000 0 demoPruneDb 1 FetchResult.not_modified 0
     demoBookRow (by decide)⟩

theorem dispatchLoop_take (cancel : Nat → Bool) (l : List FeedRow) (c : Nat) :
    ∃ n, (dispatchLoop cancel l c).1 = l.take n := by
  induction l generalizing c with
  | nil => exact ⟨0, rfl⟩
  | cons f fs ih =>
    by_cases hc : cancel c
    · exact ⟨0, by simp [dispatchLoop, hc]⟩
    · obtain ⟨n, hn⟩ := ih (c + 1)
      refine ⟨n + 1, ?_⟩
      show (if cancel c then ([], c + 1) else
        ((fun out => (f :: out.1, out.2)) (dispatchLoop cancel fs (c + 1)))).1 =
        (f :: fs).take (n + 1)
      rw [if_neg hc]
      show f :: (dispatchLoop cancel fs (c + 1)).1 = f :: fs.take n
      rw [hn]

theorem dispatchLoop_all (l : List FeedRow) (c : Nat) :
    (dispatchLoop (fun _ => false) l c).1 = l := by
  induction l generalizing c with
  | nil => rfl
  | cons f fs ih =>
    show f :: (dispatchLoop (fun _ => false) fs (c + 1)).1 = f :: fs
    rw [ih]

theorem arrivals_fst (results : Nat → FetchResult) (perm : List Nat) :
    (perm.map (fun fid => (fid, results fid))).map Prod.fst = perm := by
  induction perm with
  | nil => rfl
  | cons a l ih => simp [ih]

theorem resultLoop_reconciled_take (cancel : Nat → Bool) (nowYear now cutoff : Int)
    (arr : List (Nat × FetchResult)) (db : DB) (c : Nat) :
    ∃ n, (resultLoop cancel nowYear now cutoff arr db c).reconciled =
      (arr.map Prod.fst).take n := by
  induction arr generalizing db c with
  | nil => exact ⟨0, rfl⟩
  | cons a rs ih =>
    obtain ⟨fid, r⟩ := a
    by_cases hc : cancel c
    · exact ⟨0, by simp [resultLoop, hc]⟩
    · obtain ⟨n, hn⟩ := ih (applyResult cancel nowYear now cutoff db fid r (c + 1)).db
        (applyResult cancel nowYear now cutoff db fid r (c + 1)).ctr
      refine ⟨n + 1, ?_⟩
      show (if cancel c then (⟨db, 0, 0, 0, [], c + 1⟩ : LoopOut) else
        (fun s => (fun out => (⟨out.db, out.checked + 1,
            out.updated + (if s.added then 1 else 0),
            out.errors + (if s.isError then 1 else 0), fid :: out.reconciled,
            out.ctr⟩ : LoopOut))
          (resultLoop cancel nowYear now cutoff rs s.db s.ctr))
          (applyResult cancel nowYear now cutoff db fid r (c + 1))).reconciled =
        (((fid, r) :: rs).map Prod.fst).take (n + 1)
      rw [if_neg hc]
      show fid :: (resultLoop cancel nowYear now cutoff rs
          (applyResult cancel nowYear now cutoff db fid r (c + 1)).db
          (applyResult cancel nowYear now cutoff db fid r (c + 1)).ctr).reconciled =
        fid :: (rs.map Prod.fst).take n
      rw [hn]

theorem resultLoop_frame (cancel : Nat → Bool) (nowYear now cutoff : Int)
    (arr : List (Nat × FetchResult)) (db : DB) (c : Nat) (j : Nat)
    (hj : j ∉ arr.map Prod.fst) :
    findFeed (resultLoop cancel nowYear now cutoff arr db c).db j = findFeed db j := by
  revert db c hj
  induction arr with
  | nil =>
    intro db c hj
    rfl
  | cons a rs ih =>
    intro db c hj
    obtain ⟨fid, r⟩ := a
    simp only [List.map_cons, List.mem_cons, not_or] at hj
    simp only [resultLoop]
    by_cases hc : cancel c
    · simp only [hc, if_true]
    · simp only [hc, if_false]
      show findFeed (resultLoop cancel nowYear now cutoff rs
          (applyResult cancel nowYear now cutoff db fid r (c + 1)).db
          (applyResult cancel nowYear now cutoff db fid r (c + 1)).ctr).db j = findFeed db j
      rw [ih _ _ hj.2,
        applyResult_frame cancel nowYear now cutoff db fid r (c + 1) j hj.1]

theorem resultLoop_nocancel (nowYear now cutoff : Int) (arr : List (Nat × FetchResult))
    (db : DB) (c : Nat) :
    (resultLoop (fun _ => false) nowYear now cutoff arr db c).reconciled =
      arr.map Prod.fst ∧
    (resultLoop (fun _ => false) nowYear now cutoff arr db c).checked = arr.length := by
  induction arr generalizing db c with
  | nil => exact ⟨rfl, rfl⟩
  | cons a rs ih =>
    obtain ⟨fid, r⟩ := a
    constructor
    · show fid :: (resultLoop (fun _ => false) nowYear now cutoff rs
          (applyResult (fun _ => false) nowYear now cutoff db fid r (c + 1)).db
          (applyResult (fun _ => false) nowYear now cutoff db fid r (c + 1)).ctr).reconciled =
        ((fid, r) :: rs).map Prod.fst
      rw [(ih _ _).1]
      rfl
    · show (resultLoop (fun _ => false) nowYear now cutoff rs
          (applyResult (fun _ => false) nowYear now cutoff db fid r (c + 1)).db
          (applyResult (fun _ => false) nowYear now cutoff db fid r (c + 1)).ctr).checked + 1 =
        ((fid, r) :: rs).length
      rw [(ih _ _).2]
      rfl

theorem findFeed_pruneOld (cutoff : Int) (db : DB) (j : Nat) :
    findFeed (pruneOld cutoff db) j = findFeed db j := rfl

theorem sweep_eq_nonempty (nowYear now cutoff : Int) (db : DB) (feed_ids : Option (List Nat))
    (only_due : Bool) (cancel : Nat → Bool) (results : Nat → FetchResult) (perm : List Nat)
    (h : ¬selectFeeds db feed_ids only_due now = []) :
    update_feeds_async nowYear now cutoff db feed_ids only_due cancel results perm =
      { db := pruneOld cutoff (resultLoop cancel nowYear now cutoff
          (perm.map (fun fid => (fid, results fid))) db
          (dispatchLoop cancel (selectFeeds db feed_ids only_due now) 0).2).db,
        total := (selectFeeds db feed_ids only_due now).length,
        checked := (resultLoop cancel nowYear now cutoff
          (perm.map (fun fid => (fid, results fid))) db
          (dispatchLoop cancel (selectFeeds db feed_ids only_due now) 0).2).checked,
        updated := (resultLoop cancel nowYear now cutoff
          (perm.map (fun fid => (fid, results fid))) db
          (dispatchLoop cancel (selectFeeds db feed_ids only_due now) 0).2).updated,
        errors := (resultLoop cancel nowYear now cutoff
          (perm.map (fun fid => (fid, results fid))) db
          (dispatchLoop cancel (selectFeeds db feed_ids only_due now) 0).2).errors,
        dispatched := (dispatchLoop cancel (selectFeeds db feed_ids only_due now) 0).1.map
          FeedRow.id,
        reconciled := (resultLoop cancel nowYear now cutoff
          (perm.map (fun fid => (fid, results fid))) db
          (dispatchLoop cancel (selectFeeds db feed_ids only_due now) 0).2).reconciled,
        txnOpened := true, pruned := true } := by
  simp only [update_feeds_async]
  rw [if_neg (fun hlen => h (List.length_eq_zero.mp hlen))]

/-- C3 amended: the dispatched fetches form an initial segment of the
selected feeds (once the signal is observed no further fetch is
dispatched); the reconciled results form an initial segment of the
completion order (once the signal is observed in the result loop no
further result is reconciled — a result already dispatched but not yet
processed is discarded rather than delivered); every reconciled feed was
dispatched; a feed with no arriving result keeps its row untouched; and
with no cancellation every dispatched result is reconciled. -/
theorem C3_cancellation_amended :
    ∀ nowYear now cutoff db feed_ids only_due cancel results perm,
    (∃ n, (update_feeds_async nowYear now cutoff db feed_ids only_due cancel results
        perm).dispatched = ((selectFeeds db feed_ids only_due now).map FeedRow.id).take n) ∧
    (∃ n, (update_feeds_async nowYear now cutoff db feed_ids only_due cancel results
        perm).reconciled = perm.take n) ∧
    ((∀ fid ∈ perm, fid ∈ (update_feeds_async nowYear now cutoff db feed_ids only_due cancel
        results perm).dispatched) →
      ∀ fid ∈ (update_feeds_async nowYear now cutoff db feed_ids only_due cancel results
        perm).reconciled,
        fid ∈ (update_feeds_async nowYear now cutoff db feed_ids only_due cancel results
          perm).dispatched) ∧
    (∀ j, j ∉ perm →
      findFeed (update_feeds_async nowYear now cutoff db feed_ids only_due cancel results
        perm).db j = findFeed db j) ∧
    (cancel = (fun _ => false) →
      (∀ fid ∈ perm, fid ∈ (update_feeds_async nowYear now cutoff db feed_ids only_due cancel
        results perm).dispatched) →
      (update_feeds_async nowYear now cutoff db feed_ids only_due cancel results
        perm).reconciled = perm ∧
      (update_feeds_async nowYear now cutoff db feed_ids only_due cancel results
        perm).checked = perm.length ∧
      (update_feeds_async nowYear now cutoff db feed_ids only_due cancel results
        perm).dispatched = (selectFeeds db feed_ids only_due now).map FeedRow.id) := by
  intro nowYear now cutoff db feed_ids only_due cancel results perm
  have hrec : ∃ n, (update_feeds_async nowYear now cutoff db feed_ids only_due cancel results
      perm).reconciled = perm.take n := by
    by_cases hsel : selectFeeds db feed_ids only_due now = []
    · rw [sweep_empty_eq nowYear now cutoff db feed_ids only_due cancel results perm hsel]
      exact ⟨0, rfl⟩
    · rw [sweep_eq_nonempty nowYear now cutoff db feed_ids only_due cancel results perm hsel]
      obtain ⟨n, hn⟩ := resultLoop_reconciled_take cancel nowYear now cutoff
        (perm.map (fun fid => (fid, results fid))) db
        (dispatchLoop cancel (selectFeeds db feed_ids only_due now) 0).2
      rw [arrivals_fst] at hn
      exact ⟨n, hn⟩
  refine ⟨?_, hrec, ?_, ?_, ?_⟩
  · by_cases hsel : selectFeeds db feed_ids only_due now = []
    · rw [sweep_empty_eq nowYear now cutoff db feed_ids only_due cancel results perm hsel]
      exact ⟨0, rfl⟩
    · rw [sweep_eq_nonempty nowYear now cutoff db feed_ids only_due cancel results perm hsel]
      obtain ⟨n, hn⟩ := dispatchLoop_take cancel (selectFeeds db feed_ids only_due now) 0
      refine ⟨n, ?_⟩
      show (dispatchLoop cancel (selectFeeds db feed_ids only_due now) 0).1.map FeedRow.id = _
      rw [hn, List.map_take]
  · intro hp fid hf
    obtain ⟨n, hn⟩ := hrec
    rw [hn] at hf
    exact hp fid (List.take_subset n perm hf)
  · intro j hj
    by_cases hsel : selectFeeds db feed_ids only_due now = []
    · rw [sweep_empty_eq nowYear now cutoff db feed_ids only_due cancel results perm hsel]
    · rw [sweep_db_nonempty nowYear now cutoff db feed_ids only_due cancel results perm hsel,
        findFeed_pruneOld]
      refine resultLoop_frame cancel nowYear now cutoff _ db _ j ?_
      rw [arrivals_fst]
      exact hj
  · intro hcan hp
    subst hcan
    by_cases hsel : selectFeeds db feed_ids only_due now = []
    · have hd0 : (update_feeds_async nowYear now cutoff db feed_ids only_due (fun _ => false)
          results perm).dispatched = [] := by
        rw [sweep_empty_eq nowYear now cutoff db feed_ids only_due (fun _ => false) results
          perm hsel]
      have hperm : perm = [] := by
        cases perm with
        | nil => rfl
        | cons a l =>
          have := hp a (List.mem_cons_self a l)
          rw [hd0] at this
          cases this
      rw [sweep_empty_eq nowYear now cutoff db feed_ids only_due (fun _ => false) results
        perm hsel, hperm, hsel]
      exact ⟨rfl, rfl, rfl⟩
  -- nonempty case
    · rw [sweep_eq_nonempty nowYear now cutoff db feed_ids only_due (fun _ => false) results
        perm hsel]
      have hloop := resultLoop_nocancel nowYear now cutoff
        (perm.map (fun fid => (fid, results fid))) db
        (dispatchLoop (fun _ => false) (selectFeeds db feed_ids only_due now) 0).2
      refine ⟨?_, ?_, ?_⟩
      · show (resultLoop (fun _ => false) nowYear now cutoff
            (perm.map (fun fid => (fid, results fid))) db
            (dispatchLoop (fun _ => false) (selectFeeds db feed_ids only_due now) 0).2).reconciled =
          perm
        rw [hloop.1, arrivals_fst]
      · show (resultLoop (fun _ => false) nowYear now cutoff
            (perm.map (fun fid => (fid, results fid))) db
            (dispatchLoop (fun _ => false) (selectFeeds db feed_ids only_due now) 0).2).checked =
          perm.length
        rw [hloop.2, List.length_map]
      · show (dispatchLoop (fun _ => false) (selectFeeds db feed_ids only_due now) 0).1.map
            FeedRow.id = (selectFeeds db feed_ids only_due now).map FeedRow.id
        rw [dispatchLoop_all]

/-- C3 witness: a sweep with no cancellation dispatches the selected feed,
reconciles its arriving result, and leaves unrelated feed ids untouched. -/
theorem C3_cancellation_amended_witness :
    findFeed (update_feeds_async 2026 1000 0 demoDb none true (fun _ => false)
      (fun _ => FetchResult.not_modified) [1]).db 7 = findFeed demoDb 7 ∧
    (update_feeds_async 2026 1000 0 demoDb none true (fun _ => false)
      (fun _ => FetchResult.not_modified) [1]).reconciled = [1] ∧
    (update_feeds_async 2026 1000 0 demoDb none true (fun _ => false)
      (fun _ => FetchResult.not_modified) [1]).checked = 1 :=
  ⟨(C3_cancellation_amended 2026 1000 0 demoDb none true (fun _ => false)
      (fun _ => FetchResult.not_modified) [1]).2.2.2.1 7 (by decide),
   ((C3_cancellation_amended 2026 1000 0 demoDb none true (fun _ => false)
      (fun _ => FetchResult.not_modified) [1]).2.2.2.2 rfl (by decide)).1,
   ((C3_cancellation_amended 2026 1000 0 demoDb none true (fun _ => false)
      (fun _ => FetchResult.not_modified) [1]).2.2.2.2 rfl (by decide)).2.1⟩

/-- C3 counterexample: with the cancellation signal observed right after
the dispatch loop, the single dispatched fetch is never delivered to the
reconciler — checked stays 0 and the reconciled list is empty — refuting
the claim that every already-dispatched fetch result is reconciled before
the sweep ends. -/
theorem C3_cancellation_counterexample :
    (update_feeds_async 2026 1000 0 demoDb none true (fun c => decide (1 ≤ c))
      (fun _ => FetchResult.not_modified) [1]).dispatched = [1] ∧
    (update_feeds_async 2026 1000 0 demoDb none true (fun c => decide (1 ≤ c))
      (fun _ => FetchResult.not_modified) [1]).reconciled = [] ∧
    (update_feeds_async 2026 1000 0 demoDb none true (fun c => decide (1 ≤ c))
      (fun _ => FetchResult.not_modified) [1]).checked = 0 ∧
    findFeed (update_feeds_async 2026 1000 0 demoDb none true (fun c => decide (1 ≤ c))
      (fun _ => FetchResult.not_modified) [1]).db 1 = findFeed demoDb 1 := by
  exact ⟨by decide, by decide, by decide, by decide⟩

end LocalRSS
